import Mathlib

/-!
# Verification of the GSM8K reward module (`reward.py`)

Shallow embedding of the answer-extraction and reward-scoring pipeline:

* `extract_solution` — two-mode regex extraction of a numeric final answer
  from model output (modes `"strict"` and `"flexible"`, 300-character clip);
* `compute_score` — the three-tier reward policy (correct / format / no answer);
* `trl_reward_fn` — batch scoring with a length check and a fail-safe
  catch-all around the per-element loop.

Strings of the Python code are embedded as `List Char` (the extraction loop
walks characters), the `method` argument as `String` (it is only compared for
equality), Python floats as `ℚ` (the module only ever produces the four exact
constants), raised exceptions as `Except PyErr`.

The two regular expressions of the source,
`r"#### (\-?[0-9\.\,]+)"` and `r"(\-?[0-9\.\,]+)"`, are embedded as explicit
scanners (`strictFindAll`, `flexFindAll`) that mirror `re.findall`: attempt a
match at every position from left to right, advance one character on failure,
resume after the consumed text on success, and return the captured group of
each non-overlapping match.
-/

namespace Reward

/-- Exceptions the Python module can raise: a `ValueError` for an unsupported
extraction method, and a `ValueError` for mismatched batch lengths. -/
inductive PyErr where
  | invalidMethod (got : String)
  | lengthMismatch (completions solution : Nat)
deriving DecidableEq, Repr

/-- `_SOLUTION_CLIP_CHARS = 300`. -/
def SOLUTION_CLIP_CHARS : Nat := 300

/-- `REWARD_CORRECT = 1.0`. -/
def REWARD_CORRECT : ℚ := 1

/-- `REWARD_FORMAT_CORRECT = 0.3`. -/
def REWARD_FORMAT_CORRECT : ℚ := 3 / 10

/-- `REWARD_NO_ANSWER = -0.3`. -/
def REWARD_NO_ANSWER : ℚ := -3 / 10

/-- `REWARD_WRONG = 0.0`. -/
def REWARD_WRONG : ℚ := 0

/-- `_INVALID_ANSWERS = ["", "."]`. -/
def INVALID_ANSWERS : List (List Char) := [[], ['.']]

/-- The regex character class `[0-9\.\,]` shared by both answer patterns. -/
def isAnswerChar (c : Char) : Bool := c.isDigit || c == '.' || c == ','

/-- Match the regex fragment `\-?[0-9\.\,]+` at the head of `cs`: an optional
minus sign followed by a maximal nonempty run of `[0-9\.\,]` characters
(greedy, with backtracking over the optional minus). On success returns the
captured token and the remaining input. -/
def matchNumTok (cs : List Char) : Option (List Char × List Char) :=
  match cs with
  | '-' :: rest =>
    let run := rest.takeWhile isAnswerChar
    if run = [] then none
    else some ('-' :: run, rest.dropWhile isAnswerChar)
  | _ =>
    let run := cs.takeWhile isAnswerChar
    if run = [] then none
    else some (run, cs.dropWhile isAnswerChar)

/-- Match `_STRICT_ANSWER_PATTERN = r"#### (\-?[0-9\.\,]+)"` at the head of
`cs`: the literal marker `"#### "` followed by a numeric token. Returns the
captured group and the remaining input. -/
def matchStrictAt (cs : List Char) : Option (List Char × List Char) :=
  match cs with
  | '#' :: '#' :: '#' :: '#' :: ' ' :: rest => matchNumTok rest
  | _ => none

/-- `re.findall(_STRICT_ANSWER_PATTERN, s)`: scan left to right, collecting the
captured group of every non-overlapping match. `fuel` bounds the recursion;
every step consumes at least one character, so `fuel = cs.length` is exact. -/
def strictFindAllAux : Nat → List Char → List (List Char)
  | 0, _ => []
  | _ + 1, [] => []
  | fuel + 1, c :: cs =>
    match matchStrictAt (c :: cs) with
    | some (tok, rest) => tok :: strictFindAllAux fuel rest
    | none => strictFindAllAux fuel cs

/-- All captured groups of `_STRICT_ANSWER_PATTERN` in `cs`, in order. -/
def strictFindAll (cs : List Char) : List (List Char) :=
  strictFindAllAux cs.length cs

/-- `re.findall(_FLEXIBLE_ANSWER_PATTERN, s)` with
`_FLEXIBLE_ANSWER_PATTERN = r"(\-?[0-9\.\,]+)"`. -/
def flexFindAllAux : Nat → List Char → List (List Char)
  | 0, _ => []
  | _ + 1, [] => []
  | fuel + 1, c :: cs =>
    match matchNumTok (c :: cs) with
    | some (tok, rest) => tok :: flexFindAllAux fuel rest
    | none => flexFindAllAux fuel cs

/-- All captured groups of `_FLEXIBLE_ANSWER_PATTERN` in `cs`, in order. -/
def flexFindAll (cs : List Char) : List (List Char) :=
  flexFindAllAux cs.length cs

/-- The clipping step of `extract_solution`:
`if len(solution_str) > _SOLUTION_CLIP_CHARS: solution_str = solution_str[-_SOLUTION_CLIP_CHARS:]`. -/
def clipSolution (s : List Char) : List Char :=
  if SOLUTION_CLIP_CHARS < s.length then s.drop (s.length - SOLUTION_CLIP_CHARS)
  else s

/-- `solutions[-1].replace(",", "").replace("$", "")`: remove every comma,
then every dollar sign, from the chosen token. -/
def cleanAnswer (tok : List Char) : List Char :=
  (tok.filter (fun c => c != ',')).filter (fun c => c != '$')

/-- The flexible-mode selection loop:
`for answer in reversed(answers): if answer not in _INVALID_ANSWERS: final_answer = answer; break`,
applied here to the already-reversed list. Returns `none` when no candidate is
valid (in the source, `final_answer` stays `None`). -/
def firstValid : List (List Char) → Option (List Char)
  | [] => none
  | a :: rest => if a ∈ INVALID_ANSWERS then firstValid rest else some a

/-- `extract_solution(solution_str, method)`: validates `method`, returns
`None` on empty input, clips to the trailing 300 characters, then extracts by
the strict or flexible pattern. A raised `ValueError` is the `.error` case.
(The source's `except re.error` handler is unreachable here: the patterns are
fixed literals, and the embedded scanners cannot fail.) -/
def extract_solution (solution_str : List Char) (method : String) :
    Except PyErr (Option (List Char)) :=
  if method ∉ ["strict", "flexible"] then
    .error (.invalidMethod method)
  else if solution_str = [] then
    .ok none
  else if method = "strict" then
    match (strictFindAll (clipSolution solution_str)).getLast? with
    | none => .ok none
    | some last => .ok (some (cleanAnswer last))
  else
    if flexFindAll (clipSolution solution_str) = [] then .ok none
    else .ok (firstValid (flexFindAll (clipSolution solution_str)).reverse)

/-- `compute_score(solution_str, ground_truth, method, format_score, score)`:
returns `REWARD_NO_ANSWER` when either input is empty, otherwise extracts an
answer (propagating a raised error) and compares it with `ground_truth` by
exact string equality. -/
def compute_score (solution_str ground_truth : List Char) (method : String)
    (format_score score : ℚ) : Except PyErr ℚ :=
  if solution_str = [] ∨ ground_truth = [] then
    .ok REWARD_NO_ANSWER
  else
    match extract_solution solution_str method with
    | .error e => .error e
    | .ok none => .ok REWARD_NO_ANSWER
    | .ok (some answer) =>
      if answer = ground_truth then .ok score else .ok format_score

/-- The scoring loop of `trl_reward_fn`, parametrised by the per-element
scorer so that a failure of the loop body (the event the source's
`try/except` guards against) is representable: the first `.error` aborts the
loop and discards the partial `rewards` list, exactly as a raised exception
does in the source. -/
def scoreLoopWith (scoreOne : List Char → List Char → Except PyErr ℚ) :
    List (List Char × List Char) → Except PyErr (List ℚ)
  | [] => .ok []
  | p :: rest =>
    match scoreOne p.1 p.2 with
    | .error e => .error e
    | .ok r =>
      match scoreLoopWith scoreOne rest with
      | .error e => .error e
      | .ok rs => .ok (r :: rs)

/-- `trl_reward_fn(prompts, completions, solution)` with the scoring call
abstracted as `scoreOne`: raises `ValueError` on a length mismatch, returns
`[]` on empty input, and otherwise runs the scoring loop over the zipped
pairs inside a catch-all that degrades the whole batch to
`[REWARD_NO_ANSWER] * len(completions)` on any failure. -/
def trl_reward_fnWith (scoreOne : List Char → List Char → Except PyErr ℚ)
    (prompts completions solution : List (List Char)) : Except PyErr (List ℚ) :=
  if completions.length ≠ solution.length then
    .error (.lengthMismatch completions.length solution.length)
  else if completions = [] then
    .ok []
  else
    match scoreLoopWith scoreOne (completions.zip solution) with
    | .ok rewards => .ok rewards
    | .error _ => .ok (List.replicate completions.length REWARD_NO_ANSWER)

/-- `trl_reward_fn` as in the source: the loop body is
`compute_score(solution_str=model_answer, ground_truth=gt, method="strict",
format_score=REWARD_FORMAT_CORRECT, score=REWARD_CORRECT)`. -/
def trl_reward_fn (prompts completions solution : List (List Char)) :
    Except PyErr (List ℚ) :=
  trl_reward_fnWith
    (fun model_answer gt =>
      compute_score model_answer gt "strict" REWARD_FORMAT_CORRECT REWARD_CORRECT)
    prompts completions solution

/-! ## Helper lemmas -/

/-- The flexible-mode selection loop is `List.find?` with the validity test. -/
theorem firstValid_eq_find? (l : List (List Char)) :
    firstValid l = l.find? (fun a => decide (a ∉ INVALID_ANSWERS)) := by
  induction l with
  | nil => rfl
  | cons a rest ih =>
    by_cases h : a ∈ INVALID_ANSWERS <;>
      simp [firstValid, List.find?_cons, h, ih]

/-- If no suffix of `cs` carries a strict-pattern match, the strict scanner
finds nothing, whatever the fuel. -/
theorem strictFindAllAux_nil_of_no_match (cs : List Char)
    (h : ∀ s, s <:+ cs → matchStrictAt s = none) :
    ∀ fuel, strictFindAllAux fuel cs = [] := by
  induction cs with
  | nil => intro fuel; cases fuel <;> rfl
  | cons c cs ih =>
    intro fuel
    cases fuel with
    | zero => rfl
    | succ f =>
      have hc : matchStrictAt (c :: cs) = none := h _ (List.suffix_refl _)
      have ih' := ih (fun s hs => h s (hs.trans (List.suffix_cons c cs))) f
      simp [strictFindAllAux, hc, ih']

/-- Conversely, an empty strict scan means no suffix carries a match. -/
theorem no_match_of_strictFindAll_nil (cs : List Char)
    (h : strictFindAll cs = []) :
    ∀ s, s <:+ cs → matchStrictAt s = none := by
  induction cs with
  | nil =>
    intro s hs
    rw [List.suffix_nil.mp hs]
    rfl
  | cons c cs ih =>
    intro s hs
    unfold strictFindAll at h
    cases hm : matchStrictAt (c :: cs) with
    | some p => simp [strictFindAllAux, hm] at h
    | none =>
      have h' : strictFindAll cs = [] := by
        unfold strictFindAll
        simpa [strictFindAllAux, hm] using h
      rcases List.suffix_cons_iff.mp hs with h1 | h2
      · rw [h1]; exact hm
      · exact ih h' s h2

/-- Strict-mode extraction never raises: the method name is valid and the
scanner is total. -/
theorem extract_strict_ok (c : List Char) :
    ∃ o, extract_solution c "strict" = .ok o := by
  unfold extract_solution
  rw [if_neg (by decide : ¬(("strict" : String) ∉ ["strict", "flexible"]))]
  by_cases hc : c = []
  · exact ⟨none, by rw [if_pos hc]⟩
  · rw [if_neg hc, if_pos rfl]
    cases h : (strictFindAll (clipSolution c)).getLast? <;> exact ⟨_, rfl⟩

/-- `compute_score` with the strict method never raises. -/
theorem compute_score_strict_ok (c g : List Char) (fs sc : ℚ) :
    ∃ r, compute_score c g "strict" fs sc = .ok r := by
  unfold compute_score
  by_cases h : c = [] ∨ g = []
  · exact ⟨REWARD_NO_ANSWER, by rw [if_pos h]⟩
  · rw [if_neg h]
    obtain ⟨o, ho⟩ := extract_strict_ok c
    rw [ho]
    cases o with
    | none => exact ⟨REWARD_NO_ANSWER, rfl⟩
    | some a =>
      by_cases ha : a = g
      · exact ⟨sc, by simp [ha]⟩
      · exact ⟨fs, by simp [ha]⟩

/-- Clipping is idempotent. -/
theorem clipSolution_idem (s : List Char) :
    clipSolution (clipSolution s) = clipSolution s := by
  unfold clipSolution
  by_cases h : SOLUTION_CLIP_CHARS < s.length
  · rw [if_pos h, if_neg]
    rw [List.length_drop]
    unfold SOLUTION_CLIP_CHARS at h ⊢
    omega
  · rw [if_neg h, if_neg h]

/-- Clipping a nonempty solution leaves it nonempty. -/
theorem clipSolution_ne_nil (s : List Char) (hs : s ≠ []) :
    clipSolution s ≠ [] := by
  unfold clipSolution
  by_cases h : SOLUTION_CLIP_CHARS < s.length
  · rw [if_pos h]
    apply List.ne_nil_of_length_pos
    rw [List.length_drop]
    unfold SOLUTION_CLIP_CHARS at h ⊢
    omega
  · rw [if_neg h]; exact hs

/-- The clipped text is a suffix of the original text. -/
theorem clipSolution_suffix (s : List Char) : clipSolution s <:+ s := by
  unfold clipSolution
  by_cases h : SOLUTION_CLIP_CHARS < s.length
  · rw [if_pos h]; exact List.drop_suffix _ _
  · rw [if_neg h]

/-- The scoring loop with the source's per-element scorer never fails, and
produces exactly the sequential `compute_score` results, in order. -/
theorem scoreLoopWith_default_ok (l : List (List Char × List Char)) :
    ∃ rs, scoreLoopWith
        (fun model_answer gt =>
          compute_score model_answer gt "strict" REWARD_FORMAT_CORRECT REWARD_CORRECT)
        l = .ok rs ∧
      List.Forall₂
        (fun pr r =>
          compute_score pr.1 pr.2 "strict" REWARD_FORMAT_CORRECT REWARD_CORRECT = .ok r)
        l rs := by
  induction l with
  | nil => exact ⟨[], rfl, List.Forall₂.nil⟩
  | cons p rest ih =>
    obtain ⟨r, hr⟩ :=
      compute_score_strict_ok p.1 p.2 REWARD_FORMAT_CORRECT REWARD_CORRECT
    obtain ⟨rs, hrs, hf⟩ := ih
    exact ⟨r :: rs, by simp [scoreLoopWith, hr, hrs], List.Forall₂.cons hr hf⟩

/-- If the per-element scorer fails on some pair of the list, the scoring
loop fails. -/
theorem scoreLoopWith_error_of_mem
    (scoreOne : List Char → List Char → Except PyErr ℚ)
    (l : List (List Char × List Char))
    (h : ∃ pr ∈ l, ∃ e, scoreOne pr.1 pr.2 = .error e) :
    ∃ e, scoreLoopWith scoreOne l = .error e := by
  induction l with
  | nil => simp at h
  | cons p rest ih =>
    obtain ⟨pr, hmem, e, he⟩ := h
    rcases List.mem_cons.mp hmem with h1 | h2
    · subst h1
      exact ⟨e, by simp [scoreLoopWith, he]⟩
    · cases hf : scoreOne p.1 p.2 with
      | error e0 => exact ⟨e0, by simp [scoreLoopWith, hf]⟩
      | ok r =>
        obtain ⟨e', he'⟩ := ih ⟨pr, h2, e, he⟩
        exact ⟨e', by simp [scoreLoopWith, hf, he']⟩

/-- Any value `compute_score` returns with the default reward arguments is
one of the three constants of the reward policy. -/
theorem compute_score_default_value (c g : List Char) (m : String) (r : ℚ)
    (h : compute_score c g m REWARD_FORMAT_CORRECT REWARD_CORRECT = .ok r) :
    r = REWARD_NO_ANSWER ∨ r = REWARD_FORMAT_CORRECT ∨ r = REWARD_CORRECT := by
  unfold compute_score at h
  by_cases h0 : c = [] ∨ g = []
  · rw [if_pos h0] at h
    exact Or.inl (Except.ok.inj h).symm
  · rw [if_neg h0] at h
    cases hx : extract_solution c m with
    | error e => rw [hx] at h; exact absurd h (by simp)
    | ok o =>
      rw [hx] at h
      cases o with
      | none => exact Or.inl (Except.ok.inj h).symm
      | some a =>
        have h' : (if a = g then Except.ok (ε := PyErr) REWARD_CORRECT
            else Except.ok REWARD_FORMAT_CORRECT) = Except.ok r := h
        by_cases ha : a = g
        · rw [if_pos ha] at h'
          exact Or.inr (Or.inr (Except.ok.inj h').symm)
        · rw [if_neg ha] at h'
          exact Or.inr (Or.inl (Except.ok.inj h').symm)

/-- Every value in a successful run of the default scoring loop is one of the
three reward constants. -/
theorem scoreLoopWith_default_values (l : List (List Char × List Char))
    (rs : List ℚ)
    (h : scoreLoopWith
        (fun model_answer gt =>
          compute_score model_answer gt "strict" REWARD_FORMAT_CORRECT REWARD_CORRECT)
        l = .ok rs) :
    ∀ x ∈ rs,
      x = REWARD_NO_ANSWER ∨ x = REWARD_FORMAT_CORRECT ∨ x = REWARD_CORRECT := by
  induction l generalizing rs with
  | nil =>
    intro x hx
    simp [scoreLoopWith] at h
    subst h
    simp at hx
  | cons p rest ih =>
    intro x hx
    obtain ⟨r, hr⟩ :=
      compute_score_strict_ok p.1 p.2 REWARD_FORMAT_CORRECT REWARD_CORRECT
    rw [scoreLoopWith, hr] at h
    cases hrec : scoreLoopWith
        (fun model_answer gt =>
          compute_score model_answer gt "strict" REWARD_FORMAT_CORRECT REWARD_CORRECT)
        rest with
    | error e => rw [hrec] at h; exact absurd h (by simp)
    | ok rs' =>
      rw [hrec] at h
      have : r :: rs' = rs := Except.ok.inj h
      subst this
      rcases List.mem_cons.mp hx with h1 | h2
      · subst h1; exact compute_score_default_value p.1 p.2 "strict" x hr
      · exact ih rs' hrec x h2

/-! ## Claims -/

/-- C1: for nonempty completion `c` and ground truth `g`, `compute_score`
returns `REWARD_NO_ANSWER` when extraction yields no match, the
`score` argument (default 1.0) when the extracted token equals `g` by exact
string equality, and the `format_score` argument (default 0.3) otherwise. -/
theorem compute_score_three_tier (c g : List Char) (m : String) (fs sc : ℚ)
    (hc : c ≠ []) (hg : g ≠ []) :
    (extract_solution c m = .ok none →
      compute_score c g m fs sc = .ok REWARD_NO_ANSWER) ∧
    (∀ a, extract_solution c m = .ok (some a) →
      (a = g → compute_score c g m fs sc = .ok sc) ∧
      (a ≠ g → compute_score c g m fs sc = .ok fs)) := by
  have hor : ¬(c = [] ∨ g = []) := fun h => h.elim hc hg
  refine ⟨?_, ?_⟩
  · intro hx
    unfold compute_score
    rw [if_neg hor, hx]
  · intro a hx
    constructor
    · intro ha
      unfold compute_score
      rw [if_neg hor, hx]
      show (if a = g then Except.ok (ε := PyErr) sc else Except.ok fs) = .ok sc
      rw [if_pos ha]
    · intro ha
      unfold compute_score
      rw [if_neg hor, hx]
      show (if a = g then Except.ok (ε := PyErr) sc else Except.ok fs) = .ok fs
      rw [if_neg ha]

/-- C1 witness at `c = "#### 42"`, `g = "42"`, strict mode, default rewards. -/
theorem compute_score_three_tier_witness :
    (extract_solution "#### 42".data "strict" = .ok none →
      compute_score "#### 42".data "42".data "strict" REWARD_FORMAT_CORRECT
        REWARD_CORRECT = .ok REWARD_NO_ANSWER) ∧
    (∀ a, extract_solution "#### 42".data "strict" = .ok (some a) →
      (a = "42".data →
        compute_score "#### 42".data "42".data "strict" REWARD_FORMAT_CORRECT
          REWARD_CORRECT = .ok REWARD_CORRECT) ∧
      (a ≠ "42".data →
        compute_score "#### 42".data "42".data "strict" REWARD_FORMAT_CORRECT
          REWARD_CORRECT = .ok REWARD_FORMAT_CORRECT)) :=
  compute_score_three_tier "#### 42".data "42".data "strict"
    REWARD_FORMAT_CORRECT REWARD_CORRECT (by decide) (by decide)

set_option maxRecDepth 4000 in
/-- C2 counterexample: a text that contains a `"#### <number>"` occurrence,
yet strict extraction returns no match, because the occurrence lies before
the trailing-300-character window (the text ends in 300 filler characters).
This refutes the claim's quantification over all texts. -/
theorem strict_last_occurrence_clip_counterexample :
    strictFindAll ("#### 1".data ++ List.replicate 300 'a') ≠ [] ∧
    extract_solution ("#### 1".data ++ List.replicate 300 'a') "strict" =
      .ok none := by
  constructor
  · decide
  · rfl

/-- C2 (amended): for every text whose trailing `min(length, 300)`-character
window contains one or more `"#### <number>"` occurrences, strict extraction
returns the last such occurrence with commas and dollar signs stripped; the
`"The answer is #### 1,200"` example evaluates to `"1200"`; and every text
with no `"#### <number>"` occurrence anywhere yields no match. -/
theorem strict_last_occurrence_amended (t u : List Char)
    (h1 : strictFindAll (clipSolution t) ≠ [])
    (h2 : strictFindAll u = []) :
    extract_solution t "strict" =
      .ok (some (cleanAnswer ((strictFindAll (clipSolution t)).getLastD []))) ∧
    extract_solution u "strict" = .ok none ∧
    extract_solution "The answer is #### 1,200".data "strict" =
      .ok (some "1200".data) := by
  refine ⟨?_, ?_, rfl⟩
  · have ht : t ≠ [] := by
      intro h
      subst h
      exact h1 rfl
    unfold extract_solution
    rw [if_neg (by decide : ¬(("strict" : String) ∉ ["strict", "flexible"])),
      if_neg ht, if_pos rfl]
    cases hl : (strictFindAll (clipSolution t)).getLast? with
    | none => exact absurd (List.getLast?_eq_none_iff.mp hl) h1
    | some a =>
      have hd : (strictFindAll (clipSolution t)).getLastD [] = a := by
        rw [List.getLastD_eq_getLast?, hl]
        rfl
      rw [hd]
  · have hcu : strictFindAll (clipSolution u) = [] := by
      have hnm := no_match_of_strictFindAll_nil u h2
      exact strictFindAllAux_nil_of_no_match _
        (fun s hs => hnm s (hs.trans (clipSolution_suffix u))) _
    by_cases hu : u = []
    · subst hu
      rfl
    · unfold extract_solution
      rw [if_neg (by decide : ¬(("strict" : String) ∉ ["strict", "flexible"])),
        if_neg hu, if_pos rfl, hcu]
      rfl

/-- C2 witness: a text whose window holds two occurrences (the last one,
`"1,5"`, is returned cleaned as `"15"`) and a text with no occurrence. -/
theorem strict_last_occurrence_amended_witness :
    extract_solution "#### 3 then #### 1,5".data "strict" =
      .ok (some (cleanAnswer
        ((strictFindAll (clipSolution "#### 3 then #### 1,5".data)).getLastD []))) ∧
    extract_solution "no digits here".data "strict" = .ok none ∧
    extract_solution "The answer is #### 1,200".data "strict" =
      .ok (some "1200".data) :=
  strict_last_occurrence_amended "#### 3 then #### 1,5".data "no digits here".data
    (by decide) (by decide)

/-- C3: `trl_reward_fn` raises a length-mismatch error on inputs of different
lengths, returns `[]` on empty inputs, and otherwise returns one reward per
pair, each equal to the sequential `compute_score` call with strict mode and
the default reward constants. -/
theorem trl_reward_fn_batch_spec
    (p₁ c₁ s₁ p₂ p₃ c₃ s₃ : List (List Char))
    (h₁ : c₁.length ≠ s₁.length) (h₃ : c₃.length = s₃.length) :
    trl_reward_fn p₁ c₁ s₁ = .error (.lengthMismatch c₁.length s₁.length) ∧
    trl_reward_fn p₂ [] [] = .ok [] ∧
    ∃ rs, trl_reward_fn p₃ c₃ s₃ = .ok rs ∧
      List.Forall₂
        (fun pr r =>
          compute_score pr.1 pr.2 "strict" REWARD_FORMAT_CORRECT REWARD_CORRECT
            = .ok r)
        (c₃.zip s₃) rs := by
  refine ⟨?_, rfl, ?_⟩
  · unfold trl_reward_fn trl_reward_fnWith
    rw [if_pos h₁]
  · unfold trl_reward_fn trl_reward_fnWith
    rw [if_neg (by omega : ¬c₃.length ≠ s₃.length)]
    by_cases hc : c₃ = []
    · subst hc
      have hs : s₃ = [] := by simpa using h₃.symm
      subst hs
      exact ⟨[], by rw [if_pos rfl], List.Forall₂.nil⟩
    · rw [if_neg hc]
      obtain ⟨rs, hrs, hf⟩ := scoreLoopWith_default_ok (c₃.zip s₃)
      rw [hrs]
      exact ⟨rs, rfl, hf⟩

/-- C3 witness: a mismatched batch raises, and the singleton batch
`(["#### 42"], ["42"])` scores exactly as the sequential call does. -/
theorem trl_reward_fn_batch_spec_witness :
    trl_reward_fn [] ["a".data] [] = .error (.lengthMismatch 1 0) ∧
    trl_reward_fn [] [] [] = .ok [] ∧
    ∃ rs, trl_reward_fn [] ["#### 42".data] ["42".data] = .ok rs ∧
      List.Forall₂
        (fun pr r =>
          compute_score pr.1 pr.2 "strict" REWARD_FORMAT_CORRECT REWARD_CORRECT
            = .ok r)
        (["#### 42".data].zip ["42".data]) rs :=
  trl_reward_fn_batch_spec [] ["a".data] [] [] [] ["#### 42".data] ["42".data]
    (by decide) (by decide)

/-- C4: flexible extraction equals a backward scan of all numeric tokens of
the clipped text, returning the first (from the end) that is not an invalid
placeholder, and no match when none qualifies. -/
theorem extract_flexible_spec (t : List Char) :
    extract_solution t "flexible" =
      .ok ((flexFindAll (clipSolution t)).reverse.find?
        (fun a => decide (a ∉ INVALID_ANSWERS))) := by
  unfold extract_solution
  rw [if_neg (by decide : ¬(("flexible" : String) ∉ ["strict", "flexible"]))]
  by_cases ht : t = []
  · subst ht
    rw [if_pos rfl]
    rfl
  · rw [if_neg ht, if_neg (by decide : ¬(("flexible" : String) = "strict"))]
    by_cases ha : flexFindAll (clipSolution t) = []
    · rw [if_pos ha, ha]
      rfl
    · rw [if_neg ha, firstValid_eq_find?]

/-- C5: extraction only depends on the trailing `min(length, 300)` characters
of the text: extracting from the full text and from that suffix agree. -/
theorem extract_clip_window (t : List Char) (m : String)
    (hm : m = "strict" ∨ m = "flexible") :
    extract_solution t m =
      extract_solution
        (t.drop (t.length - min t.length SOLUTION_CLIP_CHARS)) m := by
  have hm' : ¬m ∉ ["strict", "flexible"] := by
    rcases hm with h | h <;> subst h <;> decide
  have hdrop : t.drop (t.length - min t.length SOLUTION_CLIP_CHARS) =
      clipSolution t := by
    unfold clipSolution
    by_cases h : SOLUTION_CLIP_CHARS < t.length
    · rw [if_pos h, min_eq_right h.le]
    · rw [if_neg h, min_eq_left (Nat.le_of_not_lt h), Nat.sub_self,
        List.drop_zero]
  rw [hdrop]
  by_cases ht : t = []
  · subst ht
    rfl
  · have hne := clipSolution_ne_nil t ht
    unfold extract_solution
    rw [if_neg hm', if_neg hm', if_neg ht, if_neg hne, clipSolution_idem]

/-- C5 witness at a short strict-mode input (the suffix is the whole text). -/
theorem extract_clip_window_witness :
    extract_solution "#### 7".data "strict" =
      extract_solution
        ("#### 7".data.drop
          ("#### 7".data.length - min "#### 7".data.length SOLUTION_CLIP_CHARS))
        "strict" :=
  extract_clip_window "#### 7".data "strict" (Or.inl rfl)

/-- C6: extraction on the empty text returns no match for both valid modes,
and `compute_score` returns `REWARD_NO_ANSWER` as soon as the completion or
the ground truth is empty — for every method string and reward arguments,
since the emptiness check precedes extraction. -/
theorem empty_input_behavior (m₁ m : String) (c g : List Char) (fs sc : ℚ)
    (hm : m₁ = "strict" ∨ m₁ = "flexible") (hcg : c = [] ∨ g = []) :
    extract_solution [] m₁ = .ok none ∧
    compute_score c g m fs sc = .ok REWARD_NO_ANSWER := by
  constructor
  · rcases hm with h | h <;> subst h <;> rfl
  · unfold compute_score
    rw [if_pos hcg]

/-- C6 witness: flexible mode on the empty text, and an empty completion
under an invalid method name (no error is raised: extraction never runs). -/
theorem empty_input_behavior_witness :
    extract_solution [] "flexible" = .ok none ∧
    compute_score [] "42".data "not-a-mode" REWARD_FORMAT_CORRECT REWARD_CORRECT
      = .ok REWARD_NO_ANSWER :=
  empty_input_behavior "flexible" "not-a-mode" [] "42".data
    REWARD_FORMAT_CORRECT REWARD_CORRECT (Or.inr rfl) (Or.inl rfl)

/-- C7: any method other than `"strict"` and `"flexible"` makes
`extract_solution` raise the invalid-argument `ValueError` to the caller. -/
theorem extract_invalid_method (t : List Char) (m : String)
    (h1 : m ≠ "strict") (h2 : m ≠ "flexible") :
    extract_solution t m = .error (.invalidMethod m) := by
  have hmem : m ∉ ["strict", "flexible"] := by simp [h1, h2]
  unfold extract_solution
  rw [if_pos hmem]

/-- C7 witness at the method string `"loose"`. -/
theorem extract_invalid_method_witness :
    extract_solution "#### 42".data "loose" = .error (.invalidMethod "loose") :=
  extract_invalid_method "#### 42".data "loose" (by decide) (by decide)

/-- C8: if the per-element scorer fails on any element of a nonempty
equal-length batch, the batch function swallows the error and returns the
uniform `REWARD_NO_ANSWER` list of the input length, discarding partial
results. (The scorer is abstracted here: the concrete strict-mode scorer is
total, so the guarded failure can only come from the loop body itself.) -/
theorem batch_failure_uniform_no_answer
    (scoreOne : List Char → List Char → Except PyErr ℚ)
    (p comps sols : List (List Char))
    (hlen : comps.length = sols.length) (hne : comps ≠ [])
    (hfail : ∃ pr ∈ comps.zip sols, ∃ e, scoreOne pr.1 pr.2 = .error e) :
    trl_reward_fnWith scoreOne p comps sols =
      .ok (List.replicate comps.length REWARD_NO_ANSWER) := by
  obtain ⟨e, he⟩ := scoreLoopWith_error_of_mem scoreOne (comps.zip sols) hfail
  unfold trl_reward_fnWith
  rw [if_neg (by omega : ¬comps.length ≠ sols.length), if_neg hne, he]

/-- C8 witness: a scorer that always fails degrades a singleton batch to
`[REWARD_NO_ANSWER]`. -/
theorem batch_failure_uniform_no_answer_witness :
    trl_reward_fnWith (fun _ _ => .error (.invalidMethod "boom")) []
      ["x".data] ["y".data] = .ok (List.replicate 1 REWARD_NO_ANSWER) :=
  batch_failure_uniform_no_answer (fun _ _ => .error (.invalidMethod "boom"))
    [] ["x".data] ["y".data] rfl (by decide)
    ⟨("x".data, "y".data), by decide, .invalidMethod "boom", rfl⟩

/-- C9: strict mode does not filter the placeholder values flexible mode
rejects: `"#### ."` extracts to `"."`, `"#### ,"` extracts to the empty
string (the comma is stripped), flexible mode rejects `"#### ."`, and
`compute_score` therefore grants `REWARD_FORMAT_CORRECT` to both strict-mode
completions instead of `REWARD_NO_ANSWER`. -/
theorem strict_accepts_invalid_placeholders :
    extract_solution "#### .".data "strict" = .ok (some ".".data) ∧
    extract_solution "#### ,".data "strict" = .ok (some "".data) ∧
    extract_solution "#### .".data "flexible" = .ok none ∧
    compute_score "#### .".data "42".data "strict" REWARD_FORMAT_CORRECT
      REWARD_CORRECT = .ok REWARD_FORMAT_CORRECT ∧
    compute_score "#### ,".data "42".data "strict" REWARD_FORMAT_CORRECT
      REWARD_CORRECT = .ok REWARD_FORMAT_CORRECT :=
  ⟨rfl, rfl, rfl, rfl, rfl⟩

/-- C10: with the default reward arguments, every value `compute_score`
returns lies in `{REWARD_NO_ANSWER, REWARD_FORMAT_CORRECT, REWARD_CORRECT}`,
and so does every element of a `trl_reward_fn` batch; in particular
`REWARD_WRONG = 0.0` is never returned by either. -/
theorem reward_value_range (c g : List Char) (m : String)
    (p comps sols : List (List Char)) (r : ℚ) (rs : List ℚ)
    (h1 : compute_score c g m REWARD_FORMAT_CORRECT REWARD_CORRECT = .ok r)
    (h2 : trl_reward_fn p comps sols = .ok rs) :
    ((r = REWARD_NO_ANSWER ∨ r = REWARD_FORMAT_CORRECT ∨ r = REWARD_CORRECT) ∧
      r ≠ REWARD_WRONG) ∧
    ∀ x ∈ rs,
      (x = REWARD_NO_ANSWER ∨ x = REWARD_FORMAT_CORRECT ∨ x = REWARD_CORRECT) ∧
      x ≠ REWARD_WRONG := by
  have hwrong : ∀ y : ℚ,
      y = REWARD_NO_ANSWER ∨ y = REWARD_FORMAT_CORRECT ∨ y = REWARD_CORRECT →
      y ≠ REWARD_WRONG := by
    rintro y (h | h | h) <;> subst h <;>
      norm_num [REWARD_NO_ANSWER, REWARD_FORMAT_CORRECT, REWARD_CORRECT,
        REWARD_WRONG]
  have hval := compute_score_default_value c g m r h1
  refine ⟨⟨hval, hwrong r hval⟩, ?_⟩
  intro x hx
  unfold trl_reward_fn trl_reward_fnWith at h2
  by_cases hl : comps.length ≠ sols.length
  · rw [if_pos hl] at h2
    exact absurd h2 (by simp)
  · rw [if_neg hl] at h2
    by_cases hc : comps = []
    · rw [if_pos hc] at h2
      have h3 : ([] : List ℚ) = rs := Except.ok.inj h2
      rw [← h3] at hx
      simp at hx
    · rw [if_neg hc] at h2
      cases hrun : scoreLoopWith
          (fun model_answer gt =>
            compute_score model_answer gt "strict" REWARD_FORMAT_CORRECT
              REWARD_CORRECT)
          (comps.zip sols) with
      | ok rewards =>
        rw [hrun] at h2
        have h3 : rewards = rs := Except.ok.inj h2
        subst h3
        have hv := scoreLoopWith_default_values (comps.zip sols) rewards hrun x hx
        exact ⟨hv, hwrong x hv⟩
      | error e =>
        rw [hrun] at h2
        have h3 : List.replicate comps.length REWARD_NO_ANSWER = rs :=
          Except.ok.inj h2
        rw [← h3] at hx
        have h4 := List.eq_of_mem_replicate hx
        exact ⟨Or.inl h4, hwrong x (Or.inl h4)⟩

/-- C10 witness: a correct completion yields `REWARD_CORRECT` in both the
single call and the batch, and the classification holds for it. -/
theorem reward_value_range_witness :
    ((REWARD_CORRECT = REWARD_NO_ANSWER ∨ REWARD_CORRECT = REWARD_FORMAT_CORRECT ∨
        REWARD_CORRECT = REWARD_CORRECT) ∧ REWARD_CORRECT ≠ REWARD_WRONG) ∧
    ∀ x ∈ [REWARD_CORRECT],
      (x = REWARD_NO_ANSWER ∨ x = REWARD_FORMAT_CORRECT ∨ x = REWARD_CORRECT) ∧
      x ≠ REWARD_WRONG :=
  reward_value_range "#### 42".data "42".data "strict" [] ["#### 42".data]
    ["42".data] REWARD_CORRECT [REWARD_CORRECT] rfl rfl

end Reward
